/-
Verification of the grade-spreadsheet engine
(`frontend/src/stores/grade.ts`, `frontend/src/lib/api.ts`).

Shallow embedding conventions:
* JS numbers are idealized as `ℚ` (all values occurring in the store are
  small decimals; floating-point rounding is out of scope).
* Row identifiers are JS numbers, embedded as `ℤ`.  The store keys cell
  records by the string `rowId + "-" + columnId` and parses them back with
  `split('-')`/`parseInt`; for the nonnegative ids and dash-free column ids
  the store uses, that codec is the identity, so keys are embedded directly
  as pairs `ℤ × String`.
* JS objects used as dictionaries (`grades`, `updates`, history value maps)
  are embedded as insertion-ordered association lists: assigning to an
  existing key overwrites in place, a fresh key is appended
  (`recordSet`/`recordGet` below); `Object.entries` is the list itself.
* Fields that no claim touches (timestamps, user ids, descriptive student
  fields, UI config, operation descriptions) are dropped from the
  structures.  Chinese message strings are embedded as the `ErrMsg`
  inductive; each constructor corresponds to one literal of the source.
-/
import Mathlib

/- Batteries marks the `Rat` arithmetic operations `@[irreducible]` for
rewriting hygiene.  The concrete states below are settled by `decide`, which
needs those operations to reduce, so their default reducibility is restored;
this changes no definition and no proof obligation. -/
set_option allowUnsafeReducibility true
attribute [semireducible] Rat.mul Rat.add Rat.div Rat.sub Rat.neg Rat.inv

namespace GradeStore

/-- JS object read `m[k]`: `none` models `undefined`. -/
def recordGet {α β : Type} [DecidableEq α] (m : List (α × β)) (k : α) : Option β :=
  (m.find? (fun p => p.1 = k)).map (·.2)

/-- JS object write `m[k] = v`: overwrite in place, else append. -/
def recordSet {α β : Type} [DecidableEq α] (m : List (α × β)) (k : α) (v : β) :
    List (α × β) :=
  if m.any (fun p => p.1 = k) then
    m.map (fun p => if p.1 = k then (k, v) else p)
  else
    m ++ [(k, v)]

/-- Replace the first element satisfying `p` by its image under `f`
(the embedding of `const x = l.find(p); if (x) mutate(x)`). -/
def updateFirst {α : Type} (l : List α) (p : α → Bool) (f : α → α) : List α :=
  match l with
  | [] => []
  | x :: xs => if p x then f x :: xs else x :: updateFirst xs p f

/-- JS `Array.prototype.findIndex`: `-1` when no element matches. -/
def jsFindIndex {α : Type} (p : α → Bool) (l : List α) : ℤ :=
  match l.findIdx? p with
  | some i => (i : ℤ)
  | none => -1

/-- JS `for (let x = lo; x <= hi; x++)` iteration range over integers. -/
def intRange (lo hi : ℤ) : List ℤ :=
  (List.range (hi + 1 - lo).toNat).map (fun k => lo + (k : ℤ))

/-- A grade column (`GradeColumn`); only the fields the store reads. -/
structure Column where
  id : String
  maxScore : ℚ
  weight : ℚ
  isRequired : Bool
  deriving DecidableEq, Repr

/-- A student row (`StudentGradeRow`); descriptive fields dropped. -/
structure Row where
  id : ℤ
  grades : List (String × Option ℚ)
  totalScore : ℚ
  averageScore : ℚ
  rank : ℕ
  isModified : Bool
  hasErrors : Bool
  deriving DecidableEq, Repr

/-- The validation messages produced by `validateCell`, one constructor per
string literal of the source (`'列不存在'`, `'此列为必填项'`,
`'分数必须在 0 到 ⟨max⟩ 之间'`, `'此列不支持小数'`, `'最多支持 ⟨n⟩ 位小数'`). -/
inductive ErrMsg where
  | columnMissing : ErrMsg
  | requiredField : ErrMsg
  | rangeError (max : ℚ) : ErrMsg
  | noDecimals : ErrMsg
  | decimalPlaces (n : ℕ) : ErrMsg
  deriving DecidableEq, Repr

/-- One entry of `state.validationErrors` (the constant `type: 'range'`
field is dropped). -/
structure VError where
  rowId : ℤ
  columnId : String
  message : ErrMsg
  deriving DecidableEq, Repr

/-- One history entry; only the two value maps are ever read back. -/
structure HistoryEntry where
  previousValues : List ((ℤ × String) × Option ℚ)
  newValues : List ((ℤ × String) × Option ℚ)
  deriving DecidableEq, Repr

inductive SelType where
  | cell | range | row | column
  deriving DecidableEq, Repr

/-- A `GradeSelection`: row bounds are row *indices*, column bounds are
column *ids*, exactly as in the source. -/
structure Selection where
  startRow : ℤ
  endRow : ℤ
  startColumn : String
  endColumn : String
  type : SelType
  deriving DecidableEq, Repr

/-- Store-level error string (`'加载成绩数据失败'` / `'保存成绩失败'`). -/
inductive StoreError where
  | loadFailed | saveFailed
  deriving DecidableEq, Repr

/-- The reactive store state; `courseInfo` keeps only the course id. -/
structure GradeState where
  columns : List Column
  rows : List Row
  courseInfo : Option ℤ
  saving : Bool
  error : Option StoreError
  selectedCells : List Selection
  currentCell : Option (ℤ × String)
  validationErrors : List VError
  history : List HistoryEntry
  historyIndex : ℤ
  deriving DecidableEq, Repr

/-- `DEFAULT_GRADE_VALIDATION_RULE.allowDecimals` (types/grade). -/
def defaultAllowDecimals : Bool := true

/-- `DEFAULT_GRADE_VALIDATION_RULE.decimalPlaces` (types/grade). -/
def defaultDecimalPlaces : ℕ := 2

/-- Embedding of the JS test `value.toFixed(2) === value.toString()`.
`toFixed(2)` prints exactly two fraction digits; `toString()` prints the
shortest decimal form.  For a (representable) decimal value the two strings
coincide iff the canonical decimal expansion has exactly two fraction
digits, i.e. `100*v` is an integer while `10*v` is not. -/
def toFixed2EqToString (v : ℚ) : Bool :=
  (100 * v).den = 1 ∧ ¬ (10 * v).den = 1

/-- `validateCell(rowId, columnId, value)`.  The `rowId` argument is unused
by the source except for error reporting, so it is not a parameter here;
the column list stands for `state.columns`. -/
def validateCell (columns : List Column) (columnId : String) (value : Option ℚ) :
    Option ErrMsg :=
  match columns.find? (fun c => c.id = columnId) with
  | none => some .columnMissing
  | some column =>
    if column.isRequired ∧ value = none then
      some .requiredField
    else
      match value with
      | none => none
      | some v =>
        if v < 0 ∨ v > column.maxScore then
          some (.rangeError column.maxScore)
        else if ¬ defaultAllowDecimals ∧ ¬ v.den = 1 then
          some .noDecimals
        else if ¬ defaultDecimalPlaces = 0 ∧ ¬ toFixed2EqToString v then
          some (.decimalPlaces defaultDecimalPlaces)
        else
          none

/-- The single column used by the repository's own test fixture
(`id 'assignment1'`, `maxScore 100`, `weight 20`, `isRequired true`). -/
def fixtureColumn : Column :=
  { id := "assignment1", maxScore := 100, weight := 20, isRequired := true }

/-- JS `row.grades[columnId] ?? null` (`undefined` and `null` collapse). -/
def jsValueOrNull (grades : List (String × Option ℚ)) (columnId : String) : Option ℚ :=
  (recordGet grades columnId).getD none

/-- JS `row.grades[columnId] ?? 0`. -/
def jsValueOrZero (grades : List (String × Option ℚ)) (columnId : String) : ℚ :=
  (jsValueOrNull grades columnId).getD 0

/-- `calculateTotalScore`: weighted sum `Σ (grades[col] ?? 0) * weight / 100`. -/
def calculateTotalScore (grades : List (String × Option ℚ)) (columns : List Column) : ℚ :=
  columns.foldl (fun total column =>
    total + jsValueOrZero grades column.id * column.weight / 100) 0

/-- `calculateAverageScore`: `total / totalWeight * 100`, `0` when the
weights sum to `0`. -/
def calculateAverageScore (grades : List (String × Option ℚ)) (columns : List Column) : ℚ :=
  let totalWeight := columns.foldl (fun sum col => sum + col.weight) 0
  if totalWeight = 0 then 0
  else calculateTotalScore grades columns / totalWeight * 100

/-- Stable insertion step of the JS sort with comparator
`(b.totalScore || 0) - (a.totalScore || 0)`: the new element goes in front
of the first strictly smaller total, after all earlier rows with an equal
total (JS `Array.prototype.sort` is stable). -/
def insertDesc (a : Row) : List Row → List Row
  | [] => [a]
  | b :: l => if b.totalScore < a.totalScore then a :: b :: l else b :: insertDesc a l

/-- `[...state.rows].sort((a, b) => (b.totalScore || 0) - (a.totalScore || 0))`:
stable descending sort by total (`x || 0` is the identity on numbers here). -/
def sortRowsDesc (rows : List Row) : List Row :=
  rows.foldl (fun acc a => insertDesc a acc) []

/-- `calculateRanks`: walk the sorted copy with its index and write
`rank = index + 1` into the first row of `state.rows` with a matching id. -/
def calculateRanks (st : GradeState) : GradeState :=
  let sorted := sortRowsDesc st.rows
  let newRows := sorted.enum.foldl (fun rs p =>
    updateFirst rs (fun r => r.id == p.2.id) (fun r => { r with rank := p.1 + 1 })) st.rows
  { st with rows := newRows }

/-- `addToHistory` acting on the `(history, historyIndex)` pair: truncate
redo entries (`slice(0, historyIndex + 1)`), push, advance the cursor, and
when past the 100-entry cap drop the oldest entry (`shift()`) and pull the
cursor back.  (`historyIndex + 1` is nonnegative in every reachable state,
so the JS slice never sees a negative end.) -/
def addToHistory (history : List HistoryEntry) (historyIndex : ℤ) (e : HistoryEntry) :
    List HistoryEntry × ℤ :=
  let h := history.take (historyIndex + 1).toNat ++ [e]
  let i := historyIndex + 1
  if h.length > 100 then (h.drop 1, i - 1) else (h, i)

/-- `updateCell(rowId, columnId, value)`: validate (recording or clearing a
validation error and deriving the row's `hasErrors` flag), write the value,
mark the row modified, recompute total/average, and record a history entry
with the single cell's before/after values.  The auto-save timer the source
schedules afterwards is a side effect outside the state. -/
def updateCell (st : GradeState) (rowId : ℤ) (columnId : String) (value : Option ℚ) :
    GradeState :=
  match st.rows.find? (fun r => r.id == rowId) with
  | none => st
  | some row =>
    let originalValue := jsValueOrNull row.grades columnId
    let st1 : GradeState :=
      match validateCell st.columns columnId value with
      | some msg =>
        { st with
          validationErrors := st.validationErrors ++ [⟨rowId, columnId, msg⟩],
          rows := updateFirst st.rows (fun r => r.id == rowId)
            (fun r => { r with hasErrors := true }) }
      | none =>
        let errs := st.validationErrors.filter
          (fun e => ¬ (e.rowId = rowId ∧ e.columnId = columnId))
        { st with
          validationErrors := errs,
          rows := updateFirst st.rows (fun r => r.id == rowId)
            (fun r => { r with hasErrors := errs.any (fun e => e.rowId == rowId) }) }
    let st2 := { st1 with rows := updateFirst st1.rows (fun r => r.id == rowId) (fun r =>
        let g := recordSet r.grades columnId value
        { r with grades := g, isModified := true,
                 totalScore := calculateTotalScore g st.columns,
                 averageScore := calculateAverageScore g st.columns }) }
    let hi := addToHistory st2.history st2.historyIndex
      ⟨[((rowId, columnId), originalValue)], [((rowId, columnId), value)]⟩
    { st2 with history := hi.1, historyIndex := hi.2 }

/-- `batchUpdate`: apply `updateCell` to every entry in insertion order. -/
def batchUpdate (st : GradeState) (updates : List ((ℤ × String) × Option ℚ)) : GradeState :=
  updates.foldl (fun s kv => updateCell s kv.1.1 kv.1.2 kv.2) st

/-- `canUndo` getter: `state.historyIndex > 0`. -/
def canUndo (st : GradeState) : Bool := st.historyIndex > 0

/-- `canRedo` getter: `state.historyIndex < state.history.length - 1`. -/
def canRedo (st : GradeState) : Bool := st.historyIndex < (st.history.length : ℤ) - 1

/-- Replay one history value map onto the row set: for each recorded cell,
write the value into the first matching row, mark it modified, and
recompute total/average (the shared body of `undo` and `redo`). -/
def applyHistoryValues (columns : List Column) (rows : List Row)
    (values : List ((ℤ × String) × Option ℚ)) : List Row :=
  values.foldl (fun rs kv =>
    updateFirst rs (fun r => r.id == kv.1.1) (fun r =>
      let g := recordSet r.grades kv.1.2 kv.2
      { r with grades := g, isModified := true,
               totalScore := calculateTotalScore g columns,
               averageScore := calculateAverageScore g columns })) rows

/-- `undo`: guarded by `canUndo`, decrement the cursor, then replay the
`previousValues` of the entry *at the decremented cursor* and recompute
ranks.  (When the decremented cursor has no entry — unreachable from the
store's states — the JS code would crash on `Object.entries(undefined)`;
the model stops after the decrement.) -/
def undo (st : GradeState) : GradeState :=
  if canUndo st then
    let i := st.historyIndex - 1
    match st.history[i.toNat]? with
    | none => { st with historyIndex := i }
    | some entry =>
      let st1 := { st with historyIndex := i }
      calculateRanks
        { st1 with rows := applyHistoryValues st.columns st1.rows entry.previousValues }
  else st

/-- `redo`: guarded by `canRedo`, increment the cursor, replay the entry's
`newValues`, recompute ranks. -/
def redo (st : GradeState) : GradeState :=
  if canRedo st then
    let i := st.historyIndex + 1
    match st.history[i.toNat]? with
    | none => { st with historyIndex := i }
    | some entry =>
      let st1 := { st with historyIndex := i }
      calculateRanks
        { st1 with rows := applyHistoryValues st.columns st1.rows entry.newValues }
  else st

/-- `clearHistory`. -/
def clearHistory (st : GradeState) : GradeState :=
  { st with history := [], historyIndex := -1 }

/-- `validateAll`: rebuild `state.validationErrors` from every row × column
pair.  Row `hasErrors` flags are *not* touched by the source. -/
def validateAll (st : GradeState) : GradeState :=
  let errors := st.rows.flatMap (fun row =>
    st.columns.filterMap (fun column =>
      (validateCell st.columns column.id (jsValueOrNull row.grades column.id)).map
        (fun msg => VError.mk row.id column.id msg)))
  { st with validationErrors := errors }

/-- The cells a single selection enumerates: row indices `startRow..endRow`,
column indices `findIndex(startColumn)..findIndex(endColumn)`, keeping only
in-bounds pairs — exactly the guarded double loop of the source. -/
def selectionCells (st : GradeState) (sel : Selection) : List (Row × Column) :=
  (intRange sel.startRow sel.endRow).flatMap (fun rowIdx =>
    (intRange (jsFindIndex (fun c => c.id == sel.startColumn) st.columns)
              (jsFindIndex (fun c => c.id == sel.endColumn) st.columns)).filterMap
      (fun (colIdx : ℤ) =>
        if rowIdx < 0 ∨ colIdx < 0 then none
        else match st.rows[rowIdx.toNat]?, st.columns[colIdx.toNat]? with
          | some r, some c => some (r, c)
          | _, _ => none))

/-- `Math.min(Math.max(0, x), column.maxScore)`. -/
def clampScore (maxScore : ℚ) (x : ℚ) : ℚ := min (max 0 x) maxScore

/-- The update record built by `addPoints` / `multiplyBy`: the two source
functions share this loop verbatim and differ only in the arithmetic
transform `f` applied to `grades[col] ?? 0` before clamping. -/
def selectionArithUpdates (st : GradeState) (f : ℚ → ℚ) :
    List ((ℤ × String) × Option ℚ) :=
  st.selectedCells.foldl (fun upd sel =>
    (selectionCells st sel).foldl (fun u rc =>
      recordSet u (rc.1.id, rc.2.id)
        (some (clampScore rc.2.maxScore (f (jsValueOrZero rc.1.grades rc.2.id))))) upd) []

/-- `addPoints(points)`. -/
def addPoints (st : GradeState) (points : ℚ) : GradeState :=
  batchUpdate st (selectionArithUpdates st (fun v => v + points))

/-- `multiplyBy(factor)`. -/
def multiplyBy (st : GradeState) (factor : ℚ) : GradeState :=
  batchUpdate st (selectionArithUpdates st (fun v => v * factor))

/-- `saveGrades(grades)` with the outcome of the awaited
`gradeApi.updateGrades` call passed in as `apiOk`; the returned `Bool` is
`true` when the rejection is re-thrown to the caller.  On success the saved
cells are written back with `isModified = false`, ranks recompute, and the
saved cells' validation errors are dropped; on failure only
`error`/`saving` change. -/
def saveGrades (st : GradeState) (grades : List ((ℤ × String) × Option ℚ))
    (apiOk : Bool) : GradeState × Bool :=
  match st.courseInfo with
  | none => (st, false)
  | some _ =>
    let st1 := { st with saving := true, error := none }
    if apiOk then
      let st2 := { st1 with rows := grades.foldl (fun rs kv =>
          updateFirst rs (fun r => r.id == kv.1.1) (fun r =>
            let g := recordSet r.grades kv.1.2 kv.2
            { r with grades := g, isModified := false,
                     totalScore := calculateTotalScore g st.columns,
                     averageScore := calculateAverageScore g st.columns })) st1.rows }
      let st3 := calculateRanks st2
      let st4 := { st3 with validationErrors := st3.validationErrors.filter (fun e =>
          ¬ grades.any (fun kv => kv.1.1 == e.rowId ∧ kv.1.2 == e.columnId)) }
      ({ st4 with saving := false }, false)
    else
      ({ st1 with error := some .saveFailed, saving := false }, true)

/-- `modifiedRows` getter: ids of rows that are modified *or* have errors. -/
def modifiedRows (st : GradeState) : List ℤ :=
  (st.rows.filter (fun r => r.isModified || r.hasErrors)).map (·.id)

/-- `hasUnsavedChanges` getter. -/
def hasUnsavedChanges (st : GradeState) : Bool :=
  decide (modifiedRows st ≠ [])

/-- The batch the auto-save timer assembles at dispatch time: one triple per
entry of *every* row's `grades` record (`state.rows.forEach` over
`Object.entries(row.grades)`). -/
def autoSaveUpdates (st : GradeState) : List ((ℤ × String) × Option ℚ) :=
  st.rows.foldl (fun upd row =>
    row.grades.foldl (fun u cv => recordSet u (row.id, cv.1) cv.2) upd) []

/-- The auto-save callback at fire time: it pushes `autoSaveUpdates` iff
`hasUnsavedChanges` holds (the debounce timer itself is outside the state). -/
def autoSaveFire (st : GradeState) : Option (List ((ℤ × String) × Option ℚ)) :=
  if hasUnsavedChanges st then some (autoSaveUpdates st) else none

/-- Store `selectCell(rowId, columnId, extend)`: resolve the target to
indices (bail out on `-1`), then either select the single cell or, when
extending with a nonempty selection list, merge the *last selection
rectangle* with the target (`min`/`max` on rows, start column kept, end
column replaced).  No anchor is stored. -/
def selectCell (st : GradeState) (rowId : ℤ) (columnId : String) (extend : Bool) :
    GradeState :=
  let rowIndex := jsFindIndex (fun r => r.id == rowId) st.rows
  let colIndex := jsFindIndex (fun c => c.id == columnId) st.columns
  if rowIndex = -1 ∨ colIndex = -1 then st
  else
    let base : Selection := ⟨rowIndex, rowIndex, columnId, columnId, .cell⟩
    let sel :=
      if extend ∧ ¬ st.selectedCells = [] then
        match st.selectedCells.getLast? with
        | some last =>
          { startRow := min last.startRow rowIndex, endRow := max last.endRow rowIndex,
            startColumn := last.startColumn, endColumn := columnId,
            type := SelType.range }
        | none => base
      else base
    { st with selectedCells := [sel], currentCell := some (rowId, columnId) }

/-- `SelectionManager` (lib/api.ts): selections plus an anchor cell.  Here
`startRow`/`endRow` hold row *ids* directly, as in the source. -/
structure SelMgr where
  selections : List Selection
  anchorCell : Option (ℤ × String)
  deriving DecidableEq, Repr

/-- `SelectionManager.selectCell`: a fresh selection stores the anchor; an
extension (kept only when an anchor exists) spans `min`/`max` of the anchor
row and target row, columns running from the anchor's column to the
target's, and leaves the anchor untouched. -/
def SelMgr.selectCell (m : SelMgr) (rowId : ℤ) (columnId : String) (extend : Bool) :
    SelMgr :=
  if ¬ extend then
    { selections := [⟨rowId, rowId, columnId, columnId, .cell⟩],
      anchorCell := some (rowId, columnId) }
  else
    match m.anchorCell with
    | some a =>
      { m with selections :=
          [⟨min a.1 rowId, max a.1 rowId, a.2, columnId, .range⟩] }
    | none => m

/-- `useVirtualScroll` options with the source's defaults. -/
structure VSOptions where
  itemHeight : ℕ
  containerHeight : ℕ
  overscan : ℕ := 5
  enabled : Bool := true
  threshold : ℕ := 100
  deriving DecidableEq, Repr

/-- `startIndex`: `0` when disabled or below the threshold, otherwise
`max(0, floor(scrollTop / itemHeight) - overscan)` (ℕ-subtraction is the
`Math.max(0, ·)`). -/
def vsStartIndex (itemCount scrollTop : ℕ) (o : VSOptions) : ℕ :=
  if ¬ o.enabled ∨ itemCount < o.threshold then 0
  else scrollTop / o.itemHeight - o.overscan

/-- `endIndex`: `itemCount` when disabled or below the threshold, otherwise
`min(itemCount, startIndex + ceil(containerHeight / itemHeight) + 2*overscan)`. -/
def vsEndIndex (itemCount scrollTop : ℕ) (o : VSOptions) : ℕ :=
  if ¬ o.enabled ∨ itemCount < o.threshold then itemCount
  else
    min itemCount
      (vsStartIndex itemCount scrollTop o
        + (o.containerHeight + o.itemHeight - 1) / o.itemHeight
        + 2 * o.overscan)

/-- The cell value the store exposes for row `rowId`, column `columnId`:
`none` when no row matches, otherwise `row.grades[columnId] ?? null`. -/
def cellValue (st : GradeState) (rowId : ℤ) (columnId : String) : Option (Option ℚ) :=
  (st.rows.find? (fun r => r.id == rowId)).map (fun r => jsValueOrNull r.grades columnId)

/-- The history-log invariant the spec states: at most 100 entries, and a
cursor inside the log when it is non-empty (`-1` exactly when empty). -/
def HistInv (h : List HistoryEntry) (i : ℤ) : Prop :=
  h.length ≤ 100 ∧ (if h.length = 0 then i = -1 else 0 ≤ i ∧ i < (h.length : ℤ))

instance (h : List HistoryEntry) (i : ℤ) : Decidable (HistInv h i) := by
  unfold HistInv; infer_instance

/-- The per-state flag-derivation invariant: every row's `hasErrors` flag
agrees with "this row appears in the aggregate validation error set". -/
def FlagInv (st : GradeState) : Prop :=
  ∀ r ∈ st.rows, r.hasErrors = st.validationErrors.any (fun e => e.rowId == r.id)

instance (st : GradeState) : Decidable (FlagInv st) := by
  unfold FlagInv; infer_instance

/-- `n` sequential single-cell edits of the fixture cell. -/
def editRepeat : ℕ → GradeState → GradeState
  | 0, st => st
  | n + 1, st => editRepeat n (updateCell st 1 "assignment1" (some 90))

/-! Fixture states (the repository's own test fixture and small variants). -/

/-- The fixture row: student id 1 with `assignment1 = 85`; the derived
fields are the ones `loadGrades` computes for it. -/
def fixtureRow : Row :=
  { id := 1, grades := [("assignment1", some 85)], totalScore := 17,
    averageScore := 85, rank := 1, isModified := false, hasErrors := false }

/-- The loaded fixture state: one column, one row, clean history. -/
def fixtureState : GradeState :=
  { columns := [fixtureColumn], rows := [fixtureRow],
    courseInfo := some 1, saving := false, error := none,
    selectedCells := [], currentCell := none,
    validationErrors := [], history := [], historyIndex := -1 }

/-- A 100-weight column `a` (so totals equal the raw scores). -/
def colA : Column := { id := "a", maxScore := 100, weight := 100, isRequired := false }

/-- A row with a single grade `v` in column `a`. -/
def simpleRow (i : ℤ) (v : ℚ) : Row :=
  { id := i, grades := [("a", some v)], totalScore := v,
    averageScore := v, rank := 0, isModified := false, hasErrors := false }

/-- Three rows on column `a`, all at 50. -/
def threeRowState : GradeState :=
  { fixtureState with
    columns := [colA],
    rows := [simpleRow 1 50, simpleRow 2 50, simpleRow 3 50] }

/-- Two rows with *equal* totals (85 each). -/
def tieState : GradeState :=
  { fixtureState with columns := [colA], rows := [simpleRow 1 85, simpleRow 2 85] }

/-- One selected cell at value 95 on column `a`. -/
def selState : GradeState :=
  { fixtureState with
    columns := [colA], rows := [simpleRow 1 95],
    selectedCells := [⟨0, 0, "a", "a", .cell⟩] }

/-- Row 1 dirty, row 2 untouched since load. -/
def autosaveState : GradeState :=
  { fixtureState with
    columns := [colA],
    rows := [{ simpleRow 1 85 with isModified := true }, simpleRow 2 85] }

/-- One row at 50 on column `a` (for the undo/validation scenario). -/
def oneRowState : GradeState :=
  { fixtureState with columns := [colA], rows := [simpleRow 1 50] }

/-- A sample history entry. -/
def histE : HistoryEntry :=
  ⟨[((1, "assignment1"), some 85)], [((1, "assignment1"), some 90)]⟩

/-- Virtual-scroll options of the counterexample: `overscan = 0`. -/
def vsOpts0 : VSOptions := { itemHeight := 10, containerHeight := 20, overscan := 0 }

/-- Virtual-scroll options of the witness: `overscan = 1`. -/
def vsOpts1 : VSOptions := { itemHeight := 10, containerHeight := 20, overscan := 1 }

/-! ## General helper lemmas -/

theorem map_updateFirst_of_preserve {α β : Type} (l : List α) (p : α → Bool)
    (f : α → α) (g : α → β) (hf : ∀ x, g (f x) = g x) :
    (updateFirst l p f).map g = l.map g := by
  induction l with
  | nil => rfl
  | cons x xs ih => by_cases hp : p x <;> simp [updateFirst, hp, hf, ih]

theorem updateCell_rows_ids (st : GradeState) (i : ℤ) (c : String) (v : Option ℚ) :
    (updateCell st i c v).rows.map (·.id) = st.rows.map (·.id) := by
  unfold updateCell
  cases hf : st.rows.find? (fun r => r.id == i) with
  | none => rfl
  | some row =>
    cases hv : validateCell st.columns c v <;>
      simp only [] <;>
      (rw [map_updateFirst_of_preserve, map_updateFirst_of_preserve] <;> intro x <;> rfl)

theorem updateCell_history (st : GradeState) (i : ℤ) (c : String) (v : Option ℚ)
    (row : Row) (hf : st.rows.find? (fun r => r.id == i) = some row) :
    (updateCell st i c v).history =
      (addToHistory st.history st.historyIndex
        ⟨[((i, c), jsValueOrNull row.grades c)], [((i, c), v)]⟩).1
  ∧ (updateCell st i c v).historyIndex =
      (addToHistory st.history st.historyIndex
        ⟨[((i, c), jsValueOrNull row.grades c)], [((i, c), v)]⟩).2 := by
  unfold updateCell
  rw [hf]
  cases hv : validateCell st.columns c v <;> exact ⟨rfl, rfl⟩

theorem find?_id_isSome_iff (l : List Row) (j : ℤ) :
    (l.find? (fun r => r.id == j)).isSome = true ↔ j ∈ l.map (·.id) := by
  rw [List.find?_isSome]
  constructor
  · rintro ⟨r, hr, hp⟩
    exact List.mem_map.mpr ⟨r, hr, beq_iff_eq.mp hp⟩
  · intro hj
    obtain ⟨r, hr, hid⟩ := List.mem_map.mp hj
    exact ⟨r, hr, beq_iff_eq.mpr hid⟩

theorem addToHistory_inv (h : List HistoryEntry) (i : ℤ) (e : HistoryEntry)
    (hinv : HistInv h i) : HistInv (addToHistory h i e).1 (addToHistory h i e).2 := by
  obtain ⟨hlen, hidx⟩ := hinv
  have hidx' : (h.length = 0 ∧ i = -1) ∨ (h.length ≠ 0 ∧ 0 ≤ i ∧ i < (h.length : ℤ)) := by
    by_cases h0 : h.length = 0
    · exact Or.inl ⟨h0, by simpa [h0] using hidx⟩
    · exact Or.inr ⟨h0, by simpa [h0] using hidx⟩
  clear hidx
  have hEq : min (i + 1).toNat h.length = (i + 1).toNat := by
    rcases hidx' with ⟨h0, rfl⟩ | ⟨h0, h1, h2⟩
    · simp [h0]
    · exact min_eq_left (by omega)
  constructor
  · show (addToHistory h i e).1.length ≤ 100
    simp only [addToHistory]
    split_ifs with hcap <;>
      simp only [List.length_drop, List.length_append, List.length_take, List.length_cons,
        List.length_nil, hEq] at hcap ⊢ <;> omega
  · show if (addToHistory h i e).1.length = 0 then (addToHistory h i e).2 = -1
        else 0 ≤ (addToHistory h i e).2
          ∧ (addToHistory h i e).2 < ((addToHistory h i e).1.length : ℤ)
    simp only [addToHistory]
    split_ifs with hcap h0 h0 <;>
      simp only [List.length_drop, List.length_append, List.length_take, List.length_cons,
        List.length_nil, hEq] at hcap h0 ⊢ <;> omega

theorem addToHistory_len (h : List HistoryEntry) (e : HistoryEntry)
    (hlen : h.length ≤ 100) :
    (addToHistory h ((h.length : ℤ) - 1) e).1.length = min (h.length + 1) 100
  ∧ (addToHistory h ((h.length : ℤ) - 1) e).2 = ((min (h.length + 1) 100 : ℕ) : ℤ) - 1 := by
  have ht : (((h.length : ℤ) - 1) + 1).toNat = h.length := by omega
  constructor
  · show (addToHistory h ((h.length : ℤ) - 1) e).1.length = _
    simp only [addToHistory]
    split_ifs with hcap <;>
      simp only [List.length_drop, List.length_append, List.length_take, List.length_cons,
        List.length_nil, ht, min_self] at hcap ⊢ <;> omega
  · show (addToHistory h ((h.length : ℤ) - 1) e).2 = _
    simp only [addToHistory]
    split_ifs with hcap <;>
      simp only [List.length_drop, List.length_append, List.length_take, List.length_cons,
        List.length_nil, ht, min_self] at hcap ⊢ <;> omega

theorem editRepeat_hist : ∀ (n : ℕ) (st : GradeState),
    (st.rows.find? (fun r => r.id == 1)).isSome = true →
    st.history.length ≤ 100 →
    st.historyIndex = (st.history.length : ℤ) - 1 →
    (editRepeat n st).history.length = min (st.history.length + n) 100
  ∧ (editRepeat n st).historyIndex = ((min (st.history.length + n) 100 : ℕ) : ℤ) - 1
  | 0, st, _, hlen, hidx => by
    refine ⟨by simp only [editRepeat]; omega, ?_⟩
    simp only [editRepeat]
    rw [hidx]
    omega
  | n + 1, st, hex, hlen, hidx => by
    simp only [editRepeat]
    obtain ⟨row, hrow⟩ := Option.isSome_iff_exists.mp hex
    have hids := updateCell_rows_ids st 1 "assignment1" (some 90)
    have hhist := updateCell_history st 1 "assignment1" (some 90) row hrow
    have hlen100 := addToHistory_len st.history
      ⟨[((1, "assignment1"), jsValueOrNull row.grades "assignment1")],
       [((1, "assignment1"), some 90)]⟩ hlen
    rw [← hidx] at hlen100
    have hex' : ((updateCell st 1 "assignment1" (some 90)).rows.find?
        (fun r => r.id == 1)).isSome = true := by
      rw [find?_id_isSome_iff, hids, ← find?_id_isSome_iff]; exact hex
    have hL : (updateCell st 1 "assignment1" (some 90)).history.length
        = min (st.history.length + 1) 100 := by rw [hhist.1]; exact hlen100.1
    have hI : (updateCell st 1 "assignment1" (some 90)).historyIndex
        = ((min (st.history.length + 1) 100 : ℕ) : ℤ) - 1 := by
      rw [hhist.2]; exact hlen100.2
    have ih := editRepeat_hist n (updateCell st 1 "assignment1" (some 90)) hex'
      (by rw [hL]; omega) (by rw [hI, hL])
    rw [hL] at ih
    exact ⟨by rw [ih.1]; omega, by rw [ih.2]; congr 1; omega⟩

theorem div_add_ceil_div_le (S V H : ℕ) (hH : 0 < H) :
    (S + V) / H ≤ S / H + (V + H - 1) / H := by
  have e2 : V + H - 1 = V + (H - 1) := by omega
  have e1 : (S + V) / H = S / H + V / H + if H ≤ S % H + V % H then 1 else 0 :=
    Nat.add_div hH
  have e3 : (V + (H - 1)) / H = V / H + (H - 1) / H
      + if H ≤ V % H + (H - 1) % H then 1 else 0 :=
    Nat.add_div hH
  have e4 : (H - 1) % H = H - 1 := Nat.mod_eq_of_lt (by omega)
  have e5 : (H - 1) / H = 0 := Nat.div_eq_of_lt (by omega)
  have m1 : S % H < H := Nat.mod_lt _ hH
  have m2 : V % H < H := Nat.mod_lt _ hH
  rw [e2, e1, e3, e4, e5]
  split_ifs <;> omega

/-! ## Claim theorems -/

/-- C1 (code_bug evaluation): the undo machinery fails the round-trip on
the shortest possible sequence.  Starting from the loaded fixture (cell at
85), a single `updateCell` to 90 followed by one `undo` leaves the cell at
90 — `undo` is a complete no-op because `canUndo` requires
`historyIndex > 0`, which a single recorded edit (cursor 0) never
satisfies; the repository's own test "can undo changes" expects the cell
back at 85 and `canUndo` to be true. -/
theorem C1_undo_single_edit_noop :
    cellValue fixtureState 1 "assignment1" = some (some 85)
  ∧ cellValue (updateCell fixtureState 1 "assignment1" (some 90)) 1 "assignment1"
      = some (some 90)
  ∧ canUndo (updateCell fixtureState 1 "assignment1" (some 90)) = false
  ∧ undo (updateCell fixtureState 1 "assignment1" (some 90))
      = updateCell fixtureState 1 "assignment1" (some 90) := by
  refine ⟨by decide, by decide, by decide, ?_⟩
  unfold undo
  rw [if_neg (by decide)]

/-- C2 (amended): windowing correctness holds for every overscan ≥ 1: with
virtualization active (or not), every row whose span `[i*H, (i+1)*H]` meets
the viewport `[S, S+V]` lies inside `[startIndex, endIndex)`; `startIndex`
is clamped at 0 and `endIndex` at the row count.  (The claim's `overscan ≥ 0`
fails, see the counterexample.) -/
theorem C2_window_correct (R S i : ℕ) (o : VSOptions)
    (hH : 0 < o.itemHeight) (hover : 1 ≤ o.overscan)
    (hS : S + o.containerHeight ≤ R * o.itemHeight)
    (hiR : i < R)
    (hlow : i * o.itemHeight ≤ S + o.containerHeight)
    (hhigh : S ≤ (i + 1) * o.itemHeight) :
    vsStartIndex R S o ≤ i ∧ i < vsEndIndex R S o := by
  unfold vsEndIndex vsStartIndex
  have h1 : S / o.itemHeight ≤ i + 1 := by
    have hd := Nat.div_le_div_right (c := o.itemHeight) hhigh
    rwa [Nat.mul_div_cancel _ hH] at hd
  have h2 : i ≤ (S + o.containerHeight) / o.itemHeight :=
    (Nat.le_div_iff_mul_le hH).mpr hlow
  have h3 : (S + o.containerHeight) / o.itemHeight
      ≤ S / o.itemHeight + (o.containerHeight + o.itemHeight - 1) / o.itemHeight :=
    div_add_ceil_div_le _ _ _ hH
  split_ifs <;> constructor <;> omega

/-- C2 witness: rows of height 10, viewport 20, scroll offset 5,
overscan 1, 100 rows: row 2 intersects the viewport and lies in the
window. -/
theorem C2_window_correct_witness :
    vsStartIndex 100 5 vsOpts1 ≤ 2 ∧ 2 < vsEndIndex 100 5 vsOpts1 :=
  C2_window_correct 100 5 2 vsOpts1 (by decide) (by decide) (by decide) (by decide)
    (by decide) (by decide)

/-- C2 counterexample: with `overscan = 0` (allowed by the claim), 100 rows
of height 10, viewport 20, scroll offset 5 (inside `[0, R*H - V]`), row 2's
span `[20, 30]` intersects the viewport `[5, 25]`, yet the window is
`[0, 2)` and excludes it. -/
theorem C2_overscan_zero_counterexample :
    (0 < vsOpts0.itemHeight ∧ vsOpts0.enabled = true ∧ vsOpts0.threshold ≤ 100
      ∧ 5 + vsOpts0.containerHeight ≤ 100 * vsOpts0.itemHeight)
  ∧ (2 * vsOpts0.itemHeight ≤ 5 + vsOpts0.containerHeight
      ∧ 5 ≤ (2 + 1) * vsOpts0.itemHeight ∧ 2 < 100)
  ∧ vsStartIndex 100 5 vsOpts0 = 0
  ∧ vsEndIndex 100 5 vsOpts0 = 2
  ∧ ¬ (vsStartIndex 100 5 vsOpts0 ≤ 2 ∧ 2 < vsEndIndex 100 5 vsOpts0) := by
  decide

/-- C3 (code_bug evaluation): on the fixture column (`maxScore = 100`,
required), the range and required branches behave as the claim says, but
the decimal-places check (`value.toFixed(2) !== value.toString()`) rejects
every value whose shortest decimal form does not have exactly two fraction
digits — including 0, 85, and 100, which the claim (and the repository's
test "validates cell values correctly", expecting 85 to pass) require to be
accepted. -/
theorem C3_decimal_check_rejects_bounds :
    validateCell [fixtureColumn] "assignment1" (some 0)
      = some (.decimalPlaces 2)
  ∧ validateCell [fixtureColumn] "assignment1" (some 100)
      = some (.decimalPlaces 2)
  ∧ validateCell [fixtureColumn] "assignment1" (some 85)
      = some (.decimalPlaces 2)
  ∧ validateCell [fixtureColumn] "assignment1" (some (85 + 1/4)) = none
  ∧ validateCell [fixtureColumn] "assignment1" (some 150)
      = some (.rangeError 100)
  ∧ validateCell [fixtureColumn] "assignment1" (some (-5))
      = some (.rangeError 100)
  ∧ validateCell [fixtureColumn] "assignment1" none = some .requiredField := by
  decide

/-- C5 (confirmed): the history invariant (≤ 100 entries, cursor in range
when non-empty) is preserved by every recording; recording while full keeps
exactly 100 entries, evicting the oldest and pulling the cursor back to 99;
and 150 sequential single-cell edits from the loaded fixture leave exactly
100 entries with the cursor on the last one. -/
theorem C5_history_bound :
    (∀ (h : List HistoryEntry) (i : ℤ) (e : HistoryEntry),
      HistInv h i → HistInv (addToHistory h i e).1 (addToHistory h i e).2)
  ∧ (∀ (h : List HistoryEntry) (e : HistoryEntry), h.length = 100 →
      addToHistory h 99 e = (h.drop 1 ++ [e], 99))
  ∧ (editRepeat 150 fixtureState).history.length = 100
  ∧ (editRepeat 150 fixtureState).historyIndex = 99 := by
  have hrep := editRepeat_hist 150 fixtureState (by decide) (by decide) (by decide)
  refine ⟨addToHistory_inv, ?_, ?_, ?_⟩
  · intro h e hlen
    unfold addToHistory
    have ht : ((99 : ℤ) + 1).toNat = 100 := by decide
    rw [ht, List.take_of_length_le (by omega)]
    rw [if_pos (by simp [hlen]), List.drop_append_of_le_length (by omega)]
    norm_num
  · rw [hrep.1]; decide
  · rw [hrep.2]; decide

/-- C5 witness: the invariant-preservation conjunct applied to the empty
log, and the eviction conjunct applied to a full log of 100 entries. -/
theorem C5_history_bound_witness :
    HistInv (addToHistory [] (-1) histE).1 (addToHistory [] (-1) histE).2
  ∧ addToHistory (List.replicate 100 histE) 99 histE
      = ((List.replicate 100 histE).drop 1 ++ [histE], 99) :=
  ⟨C5_history_bound.1 [] (-1) histE (by decide),
   C5_history_bound.2.1 (List.replicate 100 histE) histE (by decide)⟩

/-- C9 (confirmed): when the external update rejects, `saveGrades` leaves
the rows (grade values and `isModified` flags) and the aggregate validation
error set exactly as they were, sets the store error, clears `saving`, and
re-throws the rejection to the caller. -/
theorem C9_save_failure_atomic (st : GradeState)
    (grades : List ((ℤ × String) × Option ℚ)) (h : st.courseInfo.isSome = true) :
    (saveGrades st grades false).1.rows = st.rows
  ∧ (saveGrades st grades false).1.validationErrors = st.validationErrors
  ∧ (saveGrades st grades false).1.history = st.history
  ∧ (saveGrades st grades false).1.error = some .saveFailed
  ∧ (saveGrades st grades false).1.saving = false
  ∧ (saveGrades st grades false).2 = true := by
  obtain ⟨cid, hc⟩ := Option.isSome_iff_exists.mp h
  unfold saveGrades
  rw [hc]
  exact ⟨rfl, rfl, rfl, rfl, rfl, rfl⟩

/-- C9 witness: a failing save on the dirty two-row state. -/
theorem C9_save_failure_atomic_witness :
    (saveGrades autosaveState [((1, "a"), some 90)] false).1.rows = autosaveState.rows
  ∧ (saveGrades autosaveState [((1, "a"), some 90)] false).1.validationErrors
      = autosaveState.validationErrors
  ∧ (saveGrades autosaveState [((1, "a"), some 90)] false).1.history
      = autosaveState.history
  ∧ (saveGrades autosaveState [((1, "a"), some 90)] false).1.error
      = some .saveFailed
  ∧ (saveGrades autosaveState [((1, "a"), some 90)] false).1.saving = false
  ∧ (saveGrades autosaveState [((1, "a"), some 90)] false).2 = true :=
  C9_save_failure_atomic autosaveState [((1, "a"), some 90)] (by decide)

/-- C10 (amended): in the grade store, an extending `selectCell` merges the
*last selection rectangle* with the target — `min` on the start row, `max`
on the end row (so the row span never shrinks), keeping the previous start
column and replacing the end column — and no anchor exists; in the
`SelectionManager` of lib/api.ts, the anchor is set by a fresh selection,
never moved by an extension, and an extension spans `min`/`max` of anchor
and target rows with columns from the anchor's column to the target's. -/
theorem C10_selection_extension :
    (∀ (st : GradeState) (rowId : ℤ) (columnId : String)
        (rest : List Selection) (last : Selection),
      st.selectedCells = rest ++ [last] →
      jsFindIndex (fun r => r.id == rowId) st.rows ≠ -1 →
      jsFindIndex (fun c => c.id == columnId) st.columns ≠ -1 →
      (selectCell st rowId columnId true).selectedCells =
        [{ startRow := min last.startRow (jsFindIndex (fun r => r.id == rowId) st.rows),
           endRow := max last.endRow (jsFindIndex (fun r => r.id == rowId) st.rows),
           startColumn := last.startColumn, endColumn := columnId,
           type := SelType.range }]
      ∧ min last.startRow (jsFindIndex (fun r => r.id == rowId) st.rows)
          ≤ last.startRow
      ∧ last.endRow ≤ max last.endRow (jsFindIndex (fun r => r.id == rowId) st.rows))
  ∧ (∀ (m : SelMgr) (rowId : ℤ) (columnId : String) (a : ℤ × String),
      m.anchorCell = some a →
      (m.selectCell rowId columnId true).anchorCell = some a
      ∧ (m.selectCell rowId columnId true).selections =
          [⟨min a.1 rowId, max a.1 rowId, a.2, columnId, SelType.range⟩])
  ∧ (∀ (m : SelMgr) (rowId : ℤ) (columnId : String),
      (m.selectCell rowId columnId false).anchorCell = some (rowId, columnId)) := by
  refine ⟨?_, ?_, ?_⟩
  · intro st rowId columnId rest last hsel hrow hcol
    have hne : ¬ (rest ++ [last] = ([] : List Selection)) := by simp
    unfold selectCell
    rw [hsel, if_neg (by push_neg; exact ⟨hrow, hcol⟩)]
    simp only [hne, eq_self_iff_true, not_false_iff, true_and, and_true, if_true,
      List.getLast?_concat]
    exact ⟨min_le_left _ _, le_max_left _ _⟩
  · intro m rowId columnId a ha
    unfold SelMgr.selectCell
    rw [if_neg (by simp), ha]
    exact ⟨rfl, rfl⟩
  · intro m rowId columnId
    unfold SelMgr.selectCell
    rw [if_pos (by simp)]

/-- C10 witness: select row-id 1 (index 0) on the three-row state, extend
to row-id 3 (index 2): the rectangle is rows `[0, 2]`, and the manager's
anchor survives an extension. -/
theorem C10_selection_extension_witness :
    (selectCell (selectCell threeRowState 1 "a" false) 3 "a" true).selectedCells =
      [{ startRow := min 0 (jsFindIndex (fun r => r.id == 3)
            (selectCell threeRowState 1 "a" false).rows),
         endRow := max 0 (jsFindIndex (fun r => r.id == 3)
            (selectCell threeRowState 1 "a" false).rows),
         startColumn := "a", endColumn := "a", type := SelType.range }]
  ∧ min 0 (jsFindIndex (fun r => r.id == 3)
        (selectCell threeRowState 1 "a" false).rows) ≤ 0
  ∧ (0 : ℤ) ≤ max 0 (jsFindIndex (fun r => r.id == 3)
        (selectCell threeRowState 1 "a" false).rows) := by
  have h := C10_selection_extension.1 (selectCell threeRowState 1 "a" false) 3 "a"
    [] ⟨0, 0, "a", "a", .cell⟩ (by decide) (by decide) (by decide)
  exact ⟨h.1, h.2.1, h.2.2⟩

/-- C10 counterexample: select row-id 1 (anchor row index 0), extend to
row-id 3 (index 2) giving rows `[0, 2]`, then extend to row-id 2 (index 1):
the claim requires the normalized anchor-target rectangle rows `[0, 1]`
(shrinking), but the store keeps rows `[0, 2]`. -/
theorem C10_shrink_counterexample :
    (selectCell (selectCell (selectCell threeRowState 1 "a" false) 3 "a" true)
        2 "a" true).selectedCells
      = [{ startRow := 0, endRow := 2, startColumn := "a", endColumn := "a",
           type := SelType.range }]
  ∧ ¬ ((selectCell (selectCell (selectCell threeRowState 1 "a" false) 3 "a" true)
        2 "a" true).selectedCells
      = [{ startRow := 0, endRow := 1, startColumn := "a", endColumn := "a",
           type := SelType.range }]) := by
  decide


/-! ## Record-fold lemmas (for the autosave batch and batch arithmetic) -/

theorem mem_recordSet_elim {α β : Type} [DecidableEq α] {m : List (α × β)} {k : α}
    {v : β} {b : α × β} (hb : b ∈ recordSet m k v) : b = (k, v) ∨ b ∈ m := by
  unfold recordSet at hb
  split_ifs at hb with h
  · obtain ⟨p, hp, he⟩ := List.mem_map.mp hb
    by_cases hk : p.1 = k
    · left; rw [← he, if_pos hk]
    · right; rw [← he, if_neg hk]; exact hp
  · rcases List.mem_append.mp hb with h1 | h1
    · exact Or.inr h1
    · exact Or.inl (by simpa using h1)

theorem recordSet_mem_self {α β : Type} [DecidableEq α] (m : List (α × β)) (k : α)
    (v : β) : (k, v) ∈ recordSet m k v := by
  unfold recordSet
  split_ifs with h
  · obtain ⟨p, hp, hpk⟩ := List.any_eq_true.mp h
    exact List.mem_map.mpr ⟨p, hp, by rw [if_pos (of_decide_eq_true hpk)]⟩
  · exact List.mem_append.mpr (Or.inr (by simp))

theorem recordSet_keys_mono {α β : Type} [DecidableEq α] (m : List (α × β))
    (k k' : α) (v : β) (h : ∃ w, (k', w) ∈ m) : ∃ w, (k', w) ∈ recordSet m k v := by
  by_cases hk : k' = k
  · subst hk; exact ⟨v, recordSet_mem_self m k' v⟩
  · obtain ⟨w, hw⟩ := h
    refine ⟨w, ?_⟩
    unfold recordSet
    split_ifs with hany
    · exact List.mem_map.mpr ⟨(k', w), hw, by rw [if_neg hk]⟩
    · exact List.mem_append.mpr (Or.inl hw)

theorem mem_foldl_recordSet {α β γ : Type} [DecidableEq α] (key : γ → α)
    (val : γ → β) : ∀ (L : List γ) (base : List (α × β)) (b : α × β),
    b ∈ L.foldl (fun u x => recordSet u (key x) (val x)) base →
    b ∈ base ∨ ∃ x ∈ L, b = (key x, val x)
  | [], _, _, hb => Or.inl hb
  | x :: L, base, b, hb => by
    rcases mem_foldl_recordSet key val L _ b hb with h1 | h1
    · rcases mem_recordSet_elim h1 with h2 | h2
      · exact Or.inr ⟨x, List.mem_cons_self x L, h2⟩
      · exact Or.inl h2
    · obtain ⟨y, hy, he⟩ := h1
      exact Or.inr ⟨y, List.mem_cons_of_mem x hy, he⟩

theorem foldl_recordSet_keys_mono {α β γ : Type} [DecidableEq α] (key : γ → α)
    (val : γ → β) : ∀ (L : List γ) (base : List (α × β)) (k : α),
    (∃ w, (k, w) ∈ base) →
    ∃ w, (k, w) ∈ L.foldl (fun u x => recordSet u (key x) (val x)) base
  | [], _, _, h => h
  | x :: L, base, k, h =>
    foldl_recordSet_keys_mono key val L _ k (recordSet_keys_mono _ _ _ _ h)

theorem foldl_recordSet_covers {α β γ : Type} [DecidableEq α] (key : γ → α)
    (val : γ → β) : ∀ (L : List γ) (base : List (α × β)) (x : γ), x ∈ L →
    ∃ w, (key x, w) ∈ L.foldl (fun u y => recordSet u (key y) (val y)) base
  | [], _, x, hx => absurd hx (List.not_mem_nil x)
  | y :: L, base, x, hx => by
    rcases List.mem_cons.mp hx with h1 | h1
    · subst h1
      exact foldl_recordSet_keys_mono key val L _ _
        ⟨val x, recordSet_mem_self _ _ _⟩
    · exact foldl_recordSet_covers key val L _ x h1

/-- The autosave double loop (rows, then `Object.entries(row.grades)`) is the
single fold of `recordSet` over the flattened list of all cell bindings. -/
theorem autoSaveUpdates_eq (st : GradeState) :
    autoSaveUpdates st
      = (st.rows.flatMap (fun row => row.grades.map (fun cv => ((row.id, cv.1), cv.2)))).foldl
          (fun u p => recordSet u p.1 p.2) [] := by
  unfold autoSaveUpdates
  generalize ([] : List ((ℤ × String) × Option ℚ)) = base
  induction st.rows generalizing base with
  | nil => rfl
  | cons r rows ih =>
    rw [List.flatMap_cons, List.foldl_append, List.foldl_cons, List.foldl_map]
    exact ih _

/-- C8 (amended): the batch the autosave push assembles is gated on
`hasUnsavedChanges` but consists of a `(rowIdentifier, columnIdentifier,
value)` triple for *every* cell binding of *every* loaded row — modified or
not — and contains nothing else. -/
theorem C8_autosave_batch :
    (∀ st : GradeState,
      autoSaveFire st = if hasUnsavedChanges st then some (autoSaveUpdates st) else none)
  ∧ (∀ (st : GradeState) (r : Row) (cv : String × Option ℚ),
      r ∈ st.rows → cv ∈ r.grades → ∃ w, ((r.id, cv.1), w) ∈ autoSaveUpdates st)
  ∧ (∀ (st : GradeState) (b : (ℤ × String) × Option ℚ), b ∈ autoSaveUpdates st →
      ∃ r, r ∈ st.rows ∧ r.id = b.1.1 ∧ (b.1.2, b.2) ∈ r.grades) := by
  refine ⟨fun st => rfl, ?_, ?_⟩
  · intro st r cv hr hcv
    rw [autoSaveUpdates_eq]
    have hx : ((r.id, cv.1), cv.2)
        ∈ st.rows.flatMap (fun row => row.grades.map (fun cv => ((row.id, cv.1), cv.2))) :=
      List.mem_flatMap.mpr ⟨r, hr, List.mem_map.mpr ⟨cv, hcv, rfl⟩⟩
    exact foldl_recordSet_covers Prod.fst Prod.snd _ _ _ hx
  · intro st b hb
    rw [autoSaveUpdates_eq] at hb
    rcases mem_foldl_recordSet Prod.fst Prod.snd _ _ _ hb with h1 | ⟨x, hx, he⟩
    · exact absurd h1 (List.not_mem_nil b)
    · obtain ⟨r, hr, hmap⟩ := List.mem_flatMap.mp hx
      obtain ⟨cv, hcv, hcve⟩ := List.mem_map.mp hmap
      refine ⟨r, hr, ?_, ?_⟩
      · rw [he, ← hcve]
      · rw [he, ← hcve]; exact hcv

/-- C8 witness: the coverage conjunct applied to the clean second row of the
two-row fixture state. -/
theorem C8_autosave_batch_witness :
    ∃ w, (((2 : ℤ), "a"), w) ∈ autoSaveUpdates autosaveState :=
  C8_autosave_batch.2.1 autosaveState (simpleRow 2 85) ("a", some 85)
    (by decide) (by decide)

/-- C8 counterexample: in the two-row state where only row 1 is dirty, the
autosave batch fires (row 1 is modified) yet contains row 2's cell, which
has not been modified since load — the claim says exactly the dirty cells
are included. -/
theorem C8_dirty_only_counterexample :
    autoSaveFire autosaveState = some (autoSaveUpdates autosaveState)
  ∧ (((2 : ℤ), "a"), some (85 : ℚ)) ∈ autoSaveUpdates autosaveState
  ∧ autosaveState.rows.map (fun r => (r.id, r.isModified, r.hasErrors))
      = [(1, true, false), (2, false, false)]
  ∧ modifiedRows autosaveState = [1] := by
  decide



/-! ## Flag-derivation lemmas (C7) -/

theorem foldl_updateFirst_map_preserve {β γ : Type} (g : Row → β) :
    ∀ (L : List γ) (P : γ → Row → Bool) (F : γ → Row → Row)
      (hF : ∀ x r, g (F x r) = g r) (rows : List Row),
      (L.foldl (fun rs x => updateFirst rs (P x) (F x)) rows).map g = rows.map g
  | [], _, _, _, _ => rfl
  | x :: L, P, F, hF, rows => by
    rw [List.foldl_cons,
      foldl_updateFirst_map_preserve g L P F hF (updateFirst rows (P x) (F x)),
      map_updateFirst_of_preserve _ _ _ _ (hF x)]

theorem calculateRanks_validationErrors (st : GradeState) :
    (calculateRanks st).validationErrors = st.validationErrors := rfl

theorem calculateRanks_rows_map {β : Type} (g : Row → β)
    (hg : ∀ (r : Row) (n : ℕ), g { r with rank := n } = g r) (st : GradeState) :
    (calculateRanks st).rows.map g = st.rows.map g := by
  show ((sortRowsDesc st.rows).enum.foldl
      (fun rs p => updateFirst rs (fun r => r.id == p.2.id)
        (fun r => { r with rank := p.1 + 1 })) st.rows).map g = st.rows.map g
  exact foldl_updateFirst_map_preserve g _ _ _
    (fun (x : ℕ × Row) r => hg r (x.1 + 1)) st.rows

theorem applyHistoryValues_map_preserve {β : Type} (g : Row → β)
    (hg : ∀ (r : Row) (grades : List (String × Option ℚ)) (t a : ℚ),
      g { r with grades := grades, isModified := true, totalScore := t,
                 averageScore := a } = g r)
    (columns : List Column) (rows : List Row)
    (values : List ((ℤ × String) × Option ℚ)) :
    (applyHistoryValues columns rows values).map g = rows.map g := by
  unfold applyHistoryValues
  exact foldl_updateFirst_map_preserve g _ _ _ (fun kv r => hg r _ _ _) rows

theorem undo_errors_flags (st : GradeState) :
    (undo st).validationErrors = st.validationErrors
  ∧ (undo st).rows.map (·.hasErrors) = st.rows.map (·.hasErrors) := by
  simp only [undo]
  split_ifs with hc
  · split
    · exact ⟨rfl, rfl⟩
    · constructor
      · rfl
      · rw [calculateRanks_rows_map (fun r => r.hasErrors) (fun r n => rfl)]
        exact applyHistoryValues_map_preserve (fun r => r.hasErrors)
          (fun r g t a => rfl) _ _ _
  · exact ⟨rfl, rfl⟩

theorem redo_errors_flags (st : GradeState) :
    (redo st).validationErrors = st.validationErrors
  ∧ (redo st).rows.map (·.hasErrors) = st.rows.map (·.hasErrors) := by
  simp only [redo]
  split_ifs with hc
  · split
    · exact ⟨rfl, rfl⟩
    · constructor
      · rfl
      · rw [calculateRanks_rows_map (fun r => r.hasErrors) (fun r n => rfl)]
        exact applyHistoryValues_map_preserve (fun r => r.hasErrors)
          (fun r g t a => rfl) _ _ _
  · exact ⟨rfl, rfl⟩

theorem updateFirst_eq_map_of_nodup (rows : List Row) (i : ℤ) (f : Row → Row)
    (hf : ∀ r, (f r).id = r.id) (h : (rows.map (·.id)).Nodup) :
    updateFirst rows (fun r => r.id == i) f
      = rows.map (fun r => if r.id = i then f r else r) := by
  induction rows with
  | nil => rfl
  | cons x xs ih =>
    simp only [List.map_cons, List.nodup_cons] at h
    unfold updateFirst
    rw [List.map_cons]
    by_cases hx : x.id = i
    · rw [if_pos (show ((fun r => r.id == i) x) = true by simp [hx]), if_pos hx]
      have hxs : ∀ r ∈ xs, (if r.id = i then f r else r) = r := by
        intro r hr
        rw [if_neg]
        intro hri
        exact h.1 (List.mem_map.mpr ⟨r, hr, by rw [hri, hx]⟩)
      rw [List.map_congr_left hxs, List.map_id']
    · rw [if_neg (show ¬ ((fun r => r.id == i) x) = true by simp [hx]), if_neg hx, ih h.2]

theorem any_filter_of_imp {α : Type} (p q : α → Bool)
    (h : ∀ a, q a = true → p a = true) :
    ∀ l : List α, (l.filter p).any q = l.any q
  | [] => rfl
  | a :: l => by
    rw [List.filter_cons]
    by_cases hpa : p a = true
    · rw [if_pos hpa, List.any_cons, List.any_cons, any_filter_of_imp p q h l]
    · rw [if_neg hpa, List.any_cons, any_filter_of_imp p q h l]
      have hqa : q a = false := by
        cases hq : q a
        · rfl
        · exact absurd (h a hq) hpa
      rw [hqa, Bool.false_or]


/-- Explicit form of `updateCell` when validation fails. -/
theorem updateCell_invalid_char (st : GradeState) (i : ℤ) (c : String) (v : Option ℚ)
    (row : Row) (msg : ErrMsg) (hf : st.rows.find? (fun r => r.id == i) = some row)
    (hv : validateCell st.columns c v = some msg) :
    (updateCell st i c v).validationErrors = st.validationErrors ++ [⟨i, c, msg⟩]
  ∧ (updateCell st i c v).rows =
      updateFirst
        (updateFirst st.rows (fun r => r.id == i) (fun r => { r with hasErrors := true }))
        (fun r => r.id == i) (fun r =>
          { r with grades := recordSet r.grades c v, isModified := true,
                   totalScore := calculateTotalScore (recordSet r.grades c v) st.columns,
                   averageScore := calculateAverageScore (recordSet r.grades c v) st.columns }) := by
  unfold updateCell
  rw [hf, hv]
  exact ⟨rfl, rfl⟩

/-- Explicit form of `updateCell` when validation passes. -/
theorem updateCell_valid_char (st : GradeState) (i : ℤ) (c : String) (v : Option ℚ)
    (row : Row) (hf : st.rows.find? (fun r => r.id == i) = some row)
    (hv : validateCell st.columns c v = none) :
    (updateCell st i c v).validationErrors =
      st.validationErrors.filter (fun e => ¬ (e.rowId = i ∧ e.columnId = c))
  ∧ (updateCell st i c v).rows =
      updateFirst
        (updateFirst st.rows (fun r => r.id == i) (fun r =>
          { r with hasErrors := (st.validationErrors.filter
              (fun e => ¬ (e.rowId = i ∧ e.columnId = c))).any (fun e => e.rowId == i) }))
        (fun r => r.id == i) (fun r =>
          { r with grades := recordSet r.grades c v, isModified := true,
                   totalScore := calculateTotalScore (recordSet r.grades c v) st.columns,
                   averageScore := calculateAverageScore (recordSet r.grades c v) st.columns }) := by
  unfold updateCell
  rw [hf, hv]
  exact ⟨rfl, rfl⟩

/-- The double `updateFirst` of `updateCell` as a pointwise map (ids distinct). -/
theorem double_updateFirst_eq_map (rows : List Row) (i : ℤ) (f1 f2 : Row → Row)
    (hf1 : ∀ r, (f1 r).id = r.id) (hf2 : ∀ r, (f2 r).id = r.id)
    (hnd : (rows.map (·.id)).Nodup) :
    updateFirst (updateFirst rows (fun r => r.id == i) f1) (fun r => r.id == i) f2
      = rows.map (fun r => if r.id = i then f2 (f1 r) else r) := by
  rw [updateFirst_eq_map_of_nodup rows i f1 hf1 hnd]
  have hids : (rows.map (fun r => if r.id = i then f1 r else r)).map (·.id)
      = rows.map (·.id) := by
    rw [List.map_map]
    apply List.map_congr_left
    intro r hr
    by_cases h : r.id = i <;> simp [h, hf1]
  rw [updateFirst_eq_map_of_nodup _ i f2 hf2 (by rw [hids]; exact hnd), List.map_map]
  apply List.map_congr_left
  intro r hr
  by_cases h : r.id = i
  · simp only [Function.comp_apply, if_pos h]
    rw [if_pos]
    rw [hf1 r]
    exact h
  · simp only [Function.comp_apply, if_neg h]

theorem updateCell_flag_inv (st : GradeState) (i : ℤ) (c : String) (v : Option ℚ)
    (hnd : (st.rows.map (·.id)).Nodup) (hinv : FlagInv st) :
    FlagInv (updateCell st i c v) := by
  cases hf : st.rows.find? (fun r => r.id == i) with
  | none =>
    have hid : updateCell st i c v = st := by unfold updateCell; rw [hf]
    rw [hid]; exact hinv
  | some row =>
    cases hv : validateCell st.columns c v with
    | some msg =>
      obtain ⟨herr, hrows⟩ := updateCell_invalid_char st i c v row msg hf hv
      intro r' hr'
      rw [hrows, double_updateFirst_eq_map st.rows i
        (fun r => { r with hasErrors := true })
        (fun r =>
          { r with grades := recordSet r.grades c v, isModified := true,
                   totalScore := calculateTotalScore (recordSet r.grades c v) st.columns,
                   averageScore := calculateAverageScore (recordSet r.grades c v) st.columns })
        (fun r => rfl) (fun r => rfl) hnd] at hr'
      obtain ⟨r, hr, rfl⟩ := List.mem_map.mp hr'
      rw [herr]
      by_cases hx : r.id = i
      · simp [if_pos hx, List.any_append, hx]
      · have hne : ((VError.mk i c msg).rowId == r.id) = false :=
          beq_eq_false_iff_ne.mpr (fun h => hx h.symm)
        simp only [if_neg hx]
        rw [hinv r hr]
        simp [List.any_append, hne]
    | none =>
      obtain ⟨herr, hrows⟩ := updateCell_valid_char st i c v row hf hv
      intro r' hr'
      rw [hrows, double_updateFirst_eq_map st.rows i
        (fun r =>
          { r with hasErrors := (st.validationErrors.filter
              (fun e => ¬ (e.rowId = i ∧ e.columnId = c))).any (fun e => e.rowId == i) })
        (fun r =>
          { r with grades := recordSet r.grades c v, isModified := true,
                   totalScore := calculateTotalScore (recordSet r.grades c v) st.columns,
                   averageScore := calculateAverageScore (recordSet r.grades c v) st.columns })
        (fun r => rfl) (fun r => rfl) hnd] at hr'
      obtain ⟨r, hr, rfl⟩ := List.mem_map.mp hr'
      rw [herr]
      by_cases hx : r.id = i
      · simp [if_pos hx, hx]
      · simp only [if_neg hx]
        rw [hinv r hr]
        refine (any_filter_of_imp _ _ ?_ st.validationErrors).symm
        intro e he
        have he2 : e.rowId = r.id := by simpa using he
        have hxx : ¬ (e.rowId = i) := by rw [he2]; exact hx
        simp [hxx]


theorem validateAll_rows (st : GradeState) : (validateAll st).rows = st.rows := rfl

/-- C7 (amended): `updateCell` does maintain the derivation "a row's
has-error flag equals membership of the row in the aggregate error set"
(for states with distinct row ids).  But `undo` and `redo` replay values
only: they change neither the validation error set nor any row's has-error
flag, so undoing an out-of-range edit does *not* clear the row's flag; and
`validateAll` rebuilds the error set without touching any flag. -/
theorem C7_flag_derivation :
    (∀ (st : GradeState) (i : ℤ) (c : String) (v : Option ℚ),
      (st.rows.map (·.id)).Nodup → FlagInv st → FlagInv (updateCell st i c v))
  ∧ (∀ st : GradeState, (undo st).validationErrors = st.validationErrors
      ∧ (undo st).rows.map (·.hasErrors) = st.rows.map (·.hasErrors))
  ∧ (∀ st : GradeState, (redo st).validationErrors = st.validationErrors
      ∧ (redo st).rows.map (·.hasErrors) = st.rows.map (·.hasErrors))
  ∧ (∀ st : GradeState, (validateAll st).rows.map (·.hasErrors)
      = st.rows.map (·.hasErrors)) :=
  ⟨updateCell_flag_inv, undo_errors_flags, redo_errors_flags,
   fun st => by rw [validateAll_rows]⟩

/-- C7 witness: an out-of-range edit on the one-row state records an error
and sets the flag, and the invariant holds afterwards. -/
theorem C7_flag_derivation_witness :
    FlagInv (updateCell oneRowState 1 "a" (some 150))
  ∧ (undo oneRowState).validationErrors = oneRowState.validationErrors :=
  ⟨C7_flag_derivation.1 oneRowState 1 "a" (some 150) (by decide) (by decide),
   (C7_flag_derivation.2.1 oneRowState).1⟩

/-- C7 counterexample: on the one-row state (cell at 50), a valid edit to
85.25 followed by an out-of-range edit to 150 marks the row; the claim says
one `undo` reverts the cell to its pre-edit value (85.25) and clears the
row's has-error flag, but the code leaves the error recorded, the flag set
— and (because the cursor is decremented before reading) rewrites the cell
to 50, the value before the *first* edit. -/
theorem C7_undo_error_counterexample :
    (updateCell (updateCell oneRowState 1 "a" (some (85 + 1/4))) 1 "a"
        (some 150)).validationErrors ≠ []
  ∧ cellValue (undo (updateCell (updateCell oneRowState 1 "a" (some (85 + 1/4))) 1 "a"
        (some 150))) 1 "a" = some (some 50)
  ∧ (undo (updateCell (updateCell oneRowState 1 "a" (some (85 + 1/4))) 1 "a"
        (some 150))).rows.map (·.hasErrors) = [true]
  ∧ (undo (updateCell (updateCell oneRowState 1 "a" (some (85 + 1/4))) 1 "a"
        (some 150))).validationErrors ≠ [] := by
  refine ⟨by decide, by decide, by decide, by decide⟩



/-! ## Sorting and rank lemmas (C6) -/

theorem insertDesc_perm (a : Row) :
    ∀ l : List Row, List.Perm (insertDesc a l) (a :: l)
  | [] => List.Perm.refl _
  | b :: l => by
    unfold insertDesc
    split_ifs with h
    · exact List.Perm.refl _
    · exact ((insertDesc_perm a l).cons b).trans (List.Perm.swap a b l)

theorem foldl_insertDesc_perm : ∀ (l acc : List Row),
    List.Perm (l.foldl (fun acc a => insertDesc a acc) acc) (acc ++ l)
  | [], acc => by simp
  | a :: l, acc => by
    rw [List.foldl_cons]
    refine (foldl_insertDesc_perm l (insertDesc a acc)).trans ?_
    refine ((insertDesc_perm a acc).append_right l).trans ?_
    exact List.perm_middle.symm

theorem sortRowsDesc_perm (rows : List Row) :
    List.Perm (sortRowsDesc rows) rows := by
  have h := foldl_insertDesc_perm rows []
  simpa [sortRowsDesc] using h

theorem insertDesc_pairwise (a : Row) : ∀ l : List Row,
    l.Pairwise (fun x y => y.totalScore ≤ x.totalScore) →
    (insertDesc a l).Pairwise (fun x y => y.totalScore ≤ x.totalScore)
  | [], _ => by simp [insertDesc]
  | b :: l, h => by
    unfold insertDesc
    obtain ⟨hb, hl⟩ := List.pairwise_cons.mp h
    split_ifs with hcmp
    · refine List.pairwise_cons.mpr ⟨?_, h⟩
      intro y hy
      rcases List.mem_cons.mp hy with rfl | hy
      · exact le_of_lt hcmp
      · exact le_trans (hb y hy) (le_of_lt hcmp)
    · refine List.pairwise_cons.mpr ⟨?_, insertDesc_pairwise a l hl⟩
      intro y hy
      have hy' : y = a ∨ y ∈ l := by
        have hm := (insertDesc_perm a l).mem_iff.mp hy
        simpa using hm
      rcases hy' with rfl | hy'
      · exact not_lt.mp hcmp
      · exact hb y hy'

theorem foldl_insertDesc_pairwise : ∀ (l acc : List Row),
    acc.Pairwise (fun x y => y.totalScore ≤ x.totalScore) →
    (l.foldl (fun acc a => insertDesc a acc) acc).Pairwise
      (fun x y => y.totalScore ≤ x.totalScore)
  | [], _, h => h
  | a :: l, acc, h => by
    rw [List.foldl_cons]
    exact foldl_insertDesc_pairwise l _ (insertDesc_pairwise a acc h)

theorem sortRowsDesc_pairwise (rows : List Row) :
    (sortRowsDesc rows).Pairwise (fun x y => y.totalScore ≤ x.totalScore) :=
  foldl_insertDesc_pairwise rows [] List.Pairwise.nil

theorem applyRanks_eq : ∀ (asg : List (ℕ × Row)) (rows : List Row),
    (rows.map (·.id)).Nodup → (asg.map (·.2.id)).Nodup →
    asg.foldl (fun rs p => updateFirst rs (fun r => r.id == p.2.id)
        (fun r => { r with rank := p.1 + 1 })) rows
      = rows.map (fun r =>
          match asg.find? (fun p => p.2.id == r.id) with
          | some p => { r with rank := p.1 + 1 }
          | none => r)
  | [], rows, _, _ => by
    simp only [List.foldl_nil, List.find?_nil]
    exact (List.map_id' rows).symm
  | p :: t, rows, hr, ha => by
    rw [List.foldl_cons]
    have ha' : (p.2.id ∉ t.map (·.2.id)) ∧ (t.map (·.2.id)).Nodup := by
      simpa using ha
    rw [updateFirst_eq_map_of_nodup rows p.2.id
      (fun r => { r with rank := p.1 + 1 }) (fun r => rfl) hr]
    have hids : ((rows.map (fun r => if r.id = p.2.id
        then ({ r with rank := p.1 + 1 } : Row) else r)).map (·.id))
        = rows.map (·.id) := by
      rw [List.map_map]
      apply List.map_congr_left
      intro r hrr
      by_cases h : r.id = p.2.id <;> simp [h]
    rw [applyRanks_eq t _ (by rw [hids]; exact hr) ha'.2, List.map_map]
    apply List.map_congr_left
    intro r hrr
    by_cases hx : r.id = p.2.id
    · simp only [Function.comp_apply, if_pos hx]
      have hfind : t.find? (fun q => q.2.id == r.id) = none := by
        apply List.find?_eq_none.mpr
        intro q hq
        simp only [beq_iff_eq]
        intro hqe
        exact ha'.1 (List.mem_map.mpr ⟨q, hq, by rw [hqe, hx]⟩)
      have hhead : (p :: t).find? (fun q => q.2.id == r.id) = some p :=
        List.find?_cons_of_pos _ (by simp [hx])
      rw [hfind, hhead]
    · simp only [Function.comp_apply, if_neg hx]
      have hhead : (p :: t).find? (fun q => q.2.id == r.id)
          = t.find? (fun q => q.2.id == r.id) :=
        List.find?_cons_of_neg _ (by simp only [beq_iff_eq]; exact fun h => hx h.symm)
      rw [hhead]

theorem calculateRanks_eq (st : GradeState) (hnd : (st.rows.map (·.id)).Nodup) :
    (calculateRanks st).rows = st.rows.map (fun r =>
      match (sortRowsDesc st.rows).enum.find? (fun p => p.2.id == r.id) with
      | some p => { r with rank := p.1 + 1 }
      | none => r) := by
  show ((sortRowsDesc st.rows).enum.foldl
      (fun rs p => updateFirst rs (fun r => r.id == p.2.id)
        (fun r => { r with rank := p.1 + 1 })) st.rows) = _
  apply applyRanks_eq _ _ hnd
  have h1 : (sortRowsDesc st.rows).enum.map (·.2.id)
      = (sortRowsDesc st.rows).map (·.id) := by
    rw [show ((·.2.id) : ℕ × Row → ℤ) = (fun r : Row => r.id) ∘ Prod.snd from rfl,
      ← List.map_map, List.enum_map_snd]
  rw [h1]
  exact (((sortRowsDesc_perm st.rows).map (·.id)).nodup_iff).mpr hnd

/-- C6 (amended): after `calculateRanks`, each row's rank is *position
based*, not dense: the rows are stably sorted by total descending (the
sorted copy is a permutation of the rows, ordered by non-increasing
`totalScore`), and every row receives `rank = index in the sorted copy + 1`
— so rows with equal totals receive distinct consecutive ranks. -/
theorem C6_position_rank (st : GradeState) (hnd : (st.rows.map (·.id)).Nodup) :
    List.Perm (sortRowsDesc st.rows) st.rows
  ∧ (sortRowsDesc st.rows).Pairwise (fun a b => b.totalScore ≤ a.totalScore)
  ∧ (calculateRanks st).rows = st.rows.map (fun r =>
      match (sortRowsDesc st.rows).enum.find? (fun p => p.2.id == r.id) with
      | some p => { r with rank := p.1 + 1 }
      | none => r) :=
  ⟨sortRowsDesc_perm _, sortRowsDesc_pairwise _, calculateRanks_eq st hnd⟩

/-- C6 witness: the position-rank characterization on the two-row tie
state. -/
theorem C6_position_rank_witness :
    List.Perm (sortRowsDesc tieState.rows) tieState.rows
  ∧ (sortRowsDesc tieState.rows).Pairwise (fun a b => b.totalScore ≤ a.totalScore)
  ∧ (calculateRanks tieState).rows = tieState.rows.map (fun r =>
      match (sortRowsDesc tieState.rows).enum.find? (fun p => p.2.id == r.id) with
      | some p => { r with rank := p.1 + 1 }
      | none => r) :=
  C6_position_rank tieState (by decide)

/-- C6 counterexample: two rows with the *same* total (85) receive ranks 1
and 2; dense rank requires both to receive rank 1. -/
theorem C6_dense_rank_counterexample :
    (tieState.rows.map (·.totalScore) = [85, 85])
  ∧ (calculateRanks tieState).rows.map (·.rank) = [1, 2]
  ∧ ¬ ((calculateRanks tieState).rows.map (·.rank) = [1, 1]) := by
  refine ⟨by decide, by decide, by decide⟩


/-! ## Cell-level update lemmas (C4) -/

theorem find?_map_recordSetSubst {α β : Type} [DecidableEq α]
    (k k' : α) (v : β) (h : k' ≠ k) :
    ∀ m : List (α × β),
      (m.map (fun p => if p.1 = k then (k, v) else p)).find? (fun p => p.1 = k')
        = m.find? (fun p => p.1 = k')
  | [] => rfl
  | p :: t => by
    rw [List.map_cons]
    by_cases hp : p.1 = k
    · rw [if_pos hp]
      rw [List.find?_cons_of_neg _ (by simp [Ne.symm h]),
        List.find?_cons_of_neg _ (by simp [hp, Ne.symm h])]
      exact find?_map_recordSetSubst k k' v h t
    · rw [if_neg hp]
      by_cases hpk : p.1 = k'
      · rw [List.find?_cons_of_pos _ (by simp [hpk]),
          List.find?_cons_of_pos _ (by simp [hpk])]
      · rw [List.find?_cons_of_neg _ (by simp [hpk]),
          List.find?_cons_of_neg _ (by simp [hpk])]
        exact find?_map_recordSetSubst k k' v h t

theorem recordGet_recordSet_self {α β : Type} [DecidableEq α]
    (m : List (α × β)) (k : α) (v : β) :
    recordGet (recordSet m k v) k = some v := by
  unfold recordGet recordSet
  split_ifs with hany
  · induction m with
    | nil => simp at hany
    | cons p t ih =>
      rw [List.map_cons]
      by_cases hp : p.1 = k
      · rw [if_pos hp, List.find?_cons_of_pos _ (by simp)]
        rfl
      · rw [if_neg hp, List.find?_cons_of_neg _ (by simp [hp])]
        exact ih (by simpa [hp] using hany)
  · have hnone : ∀ q ∈ m, ¬ q.1 = k := by
      intro q hq hqk
      exact hany (List.any_eq_true.mpr ⟨q, hq, by simp [hqk]⟩)
    clear hany
    induction m with
    | nil =>
      rw [List.nil_append, List.find?_cons_of_pos _ (by simp)]
      rfl
    | cons p t ih =>
      rw [List.cons_append,
        List.find?_cons_of_neg _ (by simp [hnone p (List.mem_cons_self p t)])]
      exact ih (fun q hq => hnone q (List.mem_cons_of_mem p hq))

theorem recordGet_recordSet_ne {α β : Type} [DecidableEq α]
    (m : List (α × β)) (k k' : α) (v : β) (h : k' ≠ k) :
    recordGet (recordSet m k v) k' = recordGet m k' := by
  unfold recordGet recordSet
  split_ifs with hany
  · rw [find?_map_recordSetSubst k k' v h m]
  · clear hany
    induction m with
    | nil =>
      rw [List.nil_append, List.find?_cons_of_neg _ (by simp [Ne.symm h])]
    | cons p t ih =>
      rw [List.cons_append]
      by_cases hp : p.1 = k'
      · rw [List.find?_cons_of_pos _ (by simp [hp]),
          List.find?_cons_of_pos _ (by simp [hp])]
      · rw [List.find?_cons_of_neg _ (by simp [hp]),
          List.find?_cons_of_neg _ (by simp [hp])]
        exact ih

theorem find?_updateFirst_self (l : List Row) (i : ℤ) (f : Row → Row)
    (hf : ∀ r, (f r).id = r.id) :
    (updateFirst l (fun r => r.id == i) f).find? (fun r => r.id == i)
      = (l.find? (fun r => r.id == i)).map f := by
  induction l with
  | nil => rfl
  | cons x xs ih =>
    unfold updateFirst
    by_cases hx : (x.id == i) = true
    · rw [if_pos hx,
        List.find?_cons_of_pos (p := fun (r : Row) => r.id == i) _ (show ((f x).id == i) = true by rw [hf]; exact hx),
        List.find?_cons_of_pos (p := fun (r : Row) => r.id == i) _ hx]
      rfl
    · rw [if_neg hx, List.find?_cons_of_neg (p := fun (r : Row) => r.id == i) _ hx,
        List.find?_cons_of_neg (p := fun (r : Row) => r.id == i) _ hx, ih]

theorem find?_updateFirst_ne (l : List Row) (i j : ℤ) (f : Row → Row)
    (hf : ∀ r, (f r).id = r.id) (hne : j ≠ i) :
    (updateFirst l (fun r => r.id == i) f).find? (fun r => r.id == j)
      = l.find? (fun r => r.id == j) := by
  induction l with
  | nil => rfl
  | cons x xs ih =>
    unfold updateFirst
    by_cases hx : (x.id == i) = true
    · rw [if_pos hx]
      have hxi : x.id = i := beq_iff_eq.mp hx
      have h1 : ((f x).id == j) = false := by
        rw [hf, hxi]; exact beq_eq_false_iff_ne.mpr (fun h => hne h.symm)
      have h2 : (x.id == j) = false := by
        rw [hxi]; exact beq_eq_false_iff_ne.mpr (fun h => hne h.symm)
      rw [List.find?_cons_of_neg (p := fun (r : Row) => r.id == j) _
          (show ¬((f x).id == j) = true by rw [h1]; exact Bool.false_ne_true),
        List.find?_cons_of_neg (p := fun (r : Row) => r.id == j) _
          (show ¬(x.id == j) = true by rw [h2]; exact Bool.false_ne_true)]
    · rw [if_neg hx]
      by_cases hj : (x.id == j) = true
      · rw [List.find?_cons_of_pos (p := fun (r : Row) => r.id == j) _ hj,
          List.find?_cons_of_pos (p := fun (r : Row) => r.id == j) _ hj]
      · rw [List.find?_cons_of_neg (p := fun (r : Row) => r.id == j) _ hj,
          List.find?_cons_of_neg (p := fun (r : Row) => r.id == j) _ hj, ih]

theorem cellValue_updateCell (st : GradeState) (i : ℤ) (c : String) (v : Option ℚ)
    (i' : ℤ) (c' : String) :
    cellValue (updateCell st i c v) i' c'
      = if i' = i ∧ c' = c ∧ (st.rows.find? (fun r => r.id == i)).isSome = true
        then some v
        else cellValue st i' c' := by
  cases hf : st.rows.find? (fun r => r.id == i) with
  | none =>
    have hid : updateCell st i c v = st := by unfold updateCell; rw [hf]
    rw [hid, if_neg (by simp [hf])]
  | some row =>
    have hrows : ∃ f1 : Row → Row, (∀ r, (f1 r).id = r.id ∧ (f1 r).grades = r.grades)
        ∧ (updateCell st i c v).rows =
          updateFirst (updateFirst st.rows (fun r => r.id == i) f1)
            (fun r => r.id == i) (fun r =>
              { r with grades := recordSet r.grades c v, isModified := true,
                       totalScore := calculateTotalScore (recordSet r.grades c v) st.columns,
                       averageScore := calculateAverageScore (recordSet r.grades c v) st.columns }) := by
      cases hv : validateCell st.columns c v with
      | some msg =>
        refine ⟨_, ?_, (updateCell_invalid_char st i c v row msg hf hv).2⟩
        exact fun r => ⟨rfl, rfl⟩
      | none =>
        refine ⟨_, ?_, (updateCell_valid_char st i c v row hf hv).2⟩
        exact fun r => ⟨rfl, rfl⟩
    obtain ⟨f1, hf1, hrows⟩ := hrows
    by_cases hii : i' = i
    · subst hii
      unfold cellValue
      rw [hrows, find?_updateFirst_self _ _ (fun r =>
          { r with grades := recordSet r.grades c v, isModified := true,
                   totalScore := calculateTotalScore (recordSet r.grades c v) st.columns,
                   averageScore := calculateAverageScore (recordSet r.grades c v) st.columns }) (fun r => rfl),
        find?_updateFirst_self _ _ f1 (fun r => (hf1 r).1), hf]
      by_cases hcc : c' = c
      · subst hcc
        rw [if_pos ⟨rfl, rfl, rfl⟩]
        show some ((recordGet (recordSet (f1 row).grades c' v) c').getD none) = some v
        rw [(hf1 row).2, recordGet_recordSet_self]
        rfl
      · rw [if_neg (fun h => hcc h.2.1)]
        show some ((recordGet (recordSet (f1 row).grades c v) c').getD none)
          = some ((recordGet row.grades c').getD none)
        rw [(hf1 row).2, recordGet_recordSet_ne _ _ _ _ hcc]
    · rw [if_neg (by intro h; exact hii h.1)]
      unfold cellValue
      rw [hrows, find?_updateFirst_ne _ _ _ (fun r =>
          { r with grades := recordSet r.grades c v, isModified := true,
                   totalScore := calculateTotalScore (recordSet r.grades c v) st.columns,
                   averageScore := calculateAverageScore (recordSet r.grades c v) st.columns }) (fun r => rfl) hii,
        find?_updateFirst_ne _ _ _ f1 (fun r => (hf1 r).1) hii]


theorem selectionCells_mem (st : GradeState) (sel : Selection) (row : Row) (col : Column)
    (h : (row, col) ∈ selectionCells st sel) : row ∈ st.rows ∧ col ∈ st.columns := by
  unfold selectionCells at h
  obtain ⟨ri, hri, hmem⟩ := List.mem_flatMap.mp h
  obtain ⟨ci, hci, heq⟩ := List.mem_filterMap.mp hmem
  split_ifs at heq with hng
  rcases hr2 : st.rows[ri.toNat]? with _ | r <;> rw [hr2] at heq <;>
    rcases hc2 : st.columns[ci.toNat]? with _ | c <;> rw [hc2] at heq
  · exact absurd heq (by simp)
  · exact absurd heq (by simp)
  · exact absurd heq (by simp)
  · have hrc : r = row ∧ c = col := by
      have h2 := Option.some.inj heq
      exact ⟨congrArg Prod.fst h2, congrArg Prod.snd h2⟩
    constructor
    · rw [← hrc.1]; exact List.getElem?_mem hr2
    · rw [← hrc.2]; exact List.getElem?_mem hc2

theorem selectionArithUpdates_eq (st : GradeState) (f : ℚ → ℚ) :
    selectionArithUpdates st f
      = (st.selectedCells.flatMap (fun s => selectionCells st s)).foldl
          (fun u rc => recordSet u (rc.1.id, rc.2.id)
            (some (clampScore rc.2.maxScore (f (jsValueOrZero rc.1.grades rc.2.id))))) [] := by
  unfold selectionArithUpdates
  generalize ([] : List ((ℤ × String) × Option ℚ)) = base
  induction st.selectedCells generalizing base with
  | nil => rfl
  | cons s sels ih =>
    rw [List.flatMap_cons, List.foldl_append, List.foldl_cons]
    exact ih _

theorem cellValue_batchUpdate_not_mem (updates : List ((ℤ × String) × Option ℚ)) :
    ∀ (st : GradeState) (i : ℤ) (c : String),
    (i, c) ∉ updates.map Prod.fst →
    cellValue (batchUpdate st updates) i c = cellValue st i c := by
  induction updates with
  | nil => intro st i c _; rfl
  | cons u rest ih =>
    intro st i c h
    rw [List.map_cons] at h
    have h1 : ¬ ((i, c) = u.1) := fun he => h (List.mem_cons.mpr (Or.inl he))
    have h2 : (i, c) ∉ rest.map Prod.fst := fun hm => h (List.mem_cons.mpr (Or.inr hm))
    show cellValue (batchUpdate (updateCell st u.1.1 u.1.2 u.2) rest) i c = cellValue st i c
    rw [ih _ _ _ h2, cellValue_updateCell, if_neg]
    intro hcon
    exact h1 (Prod.ext hcon.1 hcon.2.1)

theorem cellValue_batchUpdate_coherent (updates : List ((ℤ × String) × Option ℚ)) :
    ∀ (st : GradeState) (i : ℤ) (c : String) (v : Option ℚ),
    i ∈ st.rows.map (·.id) →
    (∀ w, ((i, c), w) ∈ updates → w = v) →
    (i, c) ∈ updates.map Prod.fst →
    cellValue (batchUpdate st updates) i c = some v := by
  induction updates with
  | nil => intro st i c v _ _ hmem; exact absurd hmem (List.not_mem_nil _)
  | cons u rest ih =>
    intro st i c v hrow hcoh hmem
    show cellValue (batchUpdate (updateCell st u.1.1 u.1.2 u.2) rest) i c = some v
    have hrow2 : i ∈ (updateCell st u.1.1 u.1.2 u.2).rows.map (·.id) := by
      rw [updateCell_rows_ids]; exact hrow
    by_cases hrest : (i, c) ∈ rest.map Prod.fst
    · exact ih _ _ _ _ hrow2 (fun w hw => hcoh w (List.mem_cons.mpr (Or.inr hw))) hrest
    · rw [cellValue_batchUpdate_not_mem rest _ _ _ hrest]
      have hu : (i, c) = u.1 := by
        rcases List.mem_cons.mp (by rw [List.map_cons] at hmem; exact hmem) with h1 | h1
        · exact h1
        · exact absurd h1 hrest
      have hv : u.2 = v := hcoh u.2 (by rw [hu, Prod.mk.eta]; exact List.mem_cons_self u rest)
      have hif : i = u.1.1 ∧ c = u.1.2
          ∧ (st.rows.find? (fun r => r.id == u.1.1)).isSome = true := by
        refine ⟨congrArg Prod.fst hu, congrArg Prod.snd hu, ?_⟩
        rw [find?_id_isSome_iff, ← congrArg Prod.fst hu]
        exact hrow
      rw [cellValue_updateCell, if_pos hif, hv]

theorem cellValue_selectionArith (st : GradeState) (f : ℚ → ℚ) (sel : Selection)
    (row : Row) (col : Column)
    (hr : (st.rows.map (·.id)).Nodup) (hc : (st.columns.map (·.id)).Nodup)
    (hsel : sel ∈ st.selectedCells) (hcell : (row, col) ∈ selectionCells st sel) :
    cellValue (batchUpdate st (selectionArithUpdates st f)) row.id col.id
      = some (some (clampScore col.maxScore (f (jsValueOrZero row.grades col.id)))) := by
  obtain ⟨hrowmem, hcolmem⟩ := selectionCells_mem st sel row col hcell
  have hrowid : row.id ∈ st.rows.map (·.id) := List.mem_map.mpr ⟨row, hrowmem, rfl⟩
  have hkey : ∃ w, ((row.id, col.id), w) ∈ selectionArithUpdates st f := by
    rw [selectionArithUpdates_eq]
    have hx : (row, col) ∈ st.selectedCells.flatMap (fun s => selectionCells st s) :=
      List.mem_flatMap.mpr ⟨sel, hsel, hcell⟩
    exact foldl_recordSet_covers (fun (rc : Row × Column) => (rc.1.id, rc.2.id))
      (fun (rc : Row × Column) =>
        some (clampScore rc.2.maxScore (f (jsValueOrZero rc.1.grades rc.2.id))))
      _ _ _ hx
  have hcoh : ∀ w, ((row.id, col.id), w) ∈ selectionArithUpdates st f →
      w = some (clampScore col.maxScore (f (jsValueOrZero row.grades col.id))) := by
    intro w hw
    rw [selectionArithUpdates_eq] at hw
    rcases mem_foldl_recordSet (fun (rc : Row × Column) => (rc.1.id, rc.2.id))
        (fun (rc : Row × Column) =>
          some (clampScore rc.2.maxScore (f (jsValueOrZero rc.1.grades rc.2.id))))
        _ _ _ hw with h1 | ⟨x, hx, he⟩
    · exact absurd h1 (List.not_mem_nil _)
    · obtain ⟨s, hs, hxc⟩ := List.mem_flatMap.mp hx
      obtain ⟨hxr, hxcol⟩ := selectionCells_mem st s x.1 x.2 (by rw [Prod.mk.eta]; exact hxc)
      have hkeyeq : (row.id, col.id) = (x.1.id, x.2.id) := congrArg Prod.fst he
      have hval : w = some (clampScore x.2.maxScore (f (jsValueOrZero x.1.grades x.2.id))) :=
        congrArg Prod.snd he
      have hid1 : x.1.id = row.id := (congrArg Prod.fst hkeyeq).symm
      have hid2 : x.2.id = col.id := (congrArg Prod.snd hkeyeq).symm
      have hroweq : x.1 = row := List.inj_on_of_nodup_map hr hxr hrowmem hid1
      have hcoleq : x.2 = col := List.inj_on_of_nodup_map hc hxcol hcolmem hid2
      rw [hval, hroweq, hcoleq]
  obtain ⟨w0, hw0⟩ := hkey
  have hmemkey : (row.id, col.id) ∈ (selectionArithUpdates st f).map Prod.fst :=
    List.mem_map.mpr ⟨_, hw0, rfl⟩
  exact cellValue_batchUpdate_coherent _ st _ _ _ hrowid hcoh hmemkey

/-- C4: for every cell `(row, col)` enumerated by a selection in the current
selection set (with distinct row ids and distinct column ids), `addPoints p`
writes `clamp([0, col.maxScore], (value ?? 0) + p)` into that cell, and
`multiplyBy q` writes `clamp([0, col.maxScore], (value ?? 0) * q)` — the
current value is read with absence treated as `0`, transformed, clamped, and
written as a present number, never as absence. -/
theorem C4_arith_clamp (st : GradeState) (p q : ℚ) (sel : Selection)
    (row : Row) (col : Column)
    (hr : (st.rows.map (·.id)).Nodup) (hc : (st.columns.map (·.id)).Nodup)
    (hsel : sel ∈ st.selectedCells) (hcell : (row, col) ∈ selectionCells st sel) :
    cellValue (addPoints st p) row.id col.id
      = some (some (clampScore col.maxScore (jsValueOrZero row.grades col.id + p)))
  ∧ cellValue (multiplyBy st q) row.id col.id
      = some (some (clampScore col.maxScore (jsValueOrZero row.grades col.id * q))) :=
  ⟨cellValue_selectionArith st (fun v => v + p) sel row col hr hc hsel hcell,
   cellValue_selectionArith st (fun v => v * q) sel row col hr hc hsel hcell⟩

/-- C4 witness: on the one-cell selection fixture (cell at 95, maxScore 100),
`addPoints 10` leaves the cell at 100 (clamped, not 105) and `multiplyBy 0`
leaves the present value `0`, not absence. -/
theorem C4_arith_clamp_witness :
    cellValue (addPoints selState 10) 1 "a" = some (some 100)
  ∧ cellValue (multiplyBy selState 0) 1 "a" = some (some 0) := by
  have h := C4_arith_clamp selState 10 0 ⟨0, 0, "a", "a", .cell⟩ (simpleRow 1 95) colA
    (by decide) (by decide) (by decide) (by decide)
  exact ⟨h.1.trans (by decide), h.2.trans (by decide)⟩


end GradeStore
